import Mathlib

/-
Verification of the VPFS daemon core (vpfs-iroh) against its specification.

The embedding is shallow: each Rust function from src/ that a claim
depends on is translated into a Lean definition over explicit state and
oracle environments.  I/O, the network and the random number generator
are modelled as oracle functions supplied in an environment structure;
a panic in the Rust code (unwrap / expect / todo!) is modelled by the
value none of an Option-typed result.  File contents are modelled as
streams of directory records (constructor none standing for a record
that fails to deserialize), which is the only way the verified code
ever inspects file bytes.
-/

namespace VPFS

/-- Data model from src/messages.rs: a Location names one blob by the
node that stores it and that node's private name for it. -/
structure Location where
  node_name : String
  uri : String
deriving DecidableEq

/-- Data model from src/messages.rs: one record of a directory blob. -/
structure DirectoryEntry where
  location : Location
  name : String
  is_dir : Bool
deriving DecidableEq

/-- Data model from src/messages.rs: a cache entry holds the local blob
name under which the cached body lives. -/
structure CacheEntry where
  uri : String
deriving DecidableEq

/-- Data model from src/messages.rs: a node identity.  The opaque
endpoint public key is modelled as a natural number. -/
structure VPFSNode where
  name : String
  endpoint_id : Nat
deriving DecidableEq

/-- Error taxonomy from src/messages.rs (enum VPFSError). -/
inductive VPFSError where
  | onlyInCache (l : Location)
  | cacheNeededForTraversal (e : DirectoryEntry)
  | notModified
  | doesNotExist
  | notFound
  | notAccessible
  | notADirectory
  | alreadyExists (e : DirectoryEntry)
  | fileNotOpen
  | other (s : String)
deriving DecidableEq

/-- File contents are modelled as a stream of records as seen by
serde_bare deserialization: some e is a record that decodes to the
DirectoryEntry e, none is a record at which decoding fails. -/
def Blob := List (Option DirectoryEntry)

instance : DecidableEq Blob := by
  unfold Blob
  infer_instance

/-- Translation of search_directory_with_reader (src/file_system.rs):
deserialize records one at a time; stop with the first entry whose name
matches, or with DoesNotExist as soon as a record fails to decode or
the stream ends. -/
def searchBlob (file_name : String) : Blob → Except VPFSError DirectoryEntry
  | [] => .error .doesNotExist
  | none :: _ => .error .doesNotExist
  | some e :: rest =>
    if e.name = file_name then .ok e else searchBlob file_name rest

/-- C10: the directory search stops at the first record that fails to
deserialize and behaves exactly as if the directory ended there: any
suffix after the failing record, matching entries included, is
invisible, and when no earlier entry matches the result is
DoesNotExist. -/
theorem search_stops_at_decode_failure :
    ∀ (file_name : String) (pre : List DirectoryEntry) (post : Blob),
      searchBlob file_name (pre.map some ++ none :: post) =
        searchBlob file_name (pre.map some) ∧
      ((∀ e ∈ pre, e.name ≠ file_name) →
        searchBlob file_name (pre.map some ++ none :: post) =
          .error .doesNotExist) := by
  intro file_name pre post
  constructor
  · induction pre with
    | nil => rfl
    | cons e rest ih =>
      simp only [List.map_cons, List.cons_append, searchBlob]
      split <;> simp [ih]
  · intro hnomatch
    induction pre with
    | nil => rfl
    | cons e rest ih =>
      simp only [List.map_cons, List.cons_append, searchBlob]
      rw [if_neg]
      · exact ih (fun x hx => hnomatch x (List.mem_cons_of_mem _ hx))
      · exact hnomatch e (List.mem_cons_self _ _)

/-- Witness for C10: with a non-matching well-formed entry before the
malformed record and a matching entry after it, the search still
returns DoesNotExist. -/
theorem search_stops_at_decode_failure_witness :
    searchBlob "b"
        ([⟨⟨"n", "u"⟩, "a", false⟩].map some ++
          none :: [some ⟨⟨"n", "v"⟩, "b", false⟩]) =
      .error .doesNotExist := by
  refine (search_stops_at_decode_failure "b"
    [⟨⟨"n", "u"⟩, "a", false⟩] [some ⟨⟨"n", "v"⟩, "b", false⟩]).2 ?_
  intro e he
  simp only [List.mem_singleton] at he
  subst he
  decide

/-
LRU cache model (claim C1).

Translation of add_cache_entry (src/file_system.rs, lines 31-62) over an
explicit state.  Backing-file names produced by
create_file_with_random_uri are random 64-bit names retried until
unused, so allocation always yields a name distinct from every existing
file; the namespace is modelled as Nat with a fresh counter.  The cache
is the list entries, least-recently-used first (LruCache::get promotes
to most-recently-used, put inserts most-recently-used, pop_lru removes
the head of this ordering).  files maps a backing-file name to the size
of the file on disk, none meaning the file does not exist.  The
persisted snapshot written at the end of add_cache_entry does not
change this state and is not modelled.
-/

/-- Cache state: entries least-recently-used first, backing files by
name with their on-disk sizes, the used_cache_bytes counter, and the
allocator counter for fresh backing-file names. -/
structure CState where
  entries : List (Location × Nat)
  files : Nat → Option Nat
  used : Nat
  fresh : Nat

/-- Pointwise update of the backing-file map. -/
def fupd (f : Nat → Option Nat) (k : Nat) (v : Option Nat) : Nat → Option Nat :=
  fun x => if x = k then v else f x

/-- Lookup of a Location in the cache list (LruCache::get, minus the
promotion, which addCacheEntry performs separately). -/
def lookupLoc : List (Location × Nat) → Location → Option Nat
  | [], _ => none
  | (l, u) :: r, loc => if l = loc then some u else lookupLoc r loc

/-- Removal of the entry of a Location from the cache list; together
with an append at the most-recently-used end this is the promotion that
LruCache::get performs on a hit. -/
def removeLocEntry : List (Location × Nat) → Location → List (Location × Nat)
  | [], _ => []
  | (l, u) :: r, loc => if l = loc then r else (l, u) :: removeLocEntry r loc

/-- Translation of the eviction loop of add_cache_entry: while the used
counter exceeds the budget, pop the least-recently-used entry, delete
its backing file and subtract that file's on-disk size; stop when the
budget holds or the cache is empty.  The code reads the popped file's
size with an expect that panics when the file is missing; the model
uses getD 0 there, and the invariant proved below shows every entry's
file is present, so the default is never taken along reachable
states. -/
def evict (max : Nat) :
    List (Location × Nat) → Nat → (Nat → Option Nat) →
      List (Location × Nat) × Nat × (Nat → Option Nat)
  | [], used, files => ([], used, files)
  | (l, u) :: rest, used, files =>
    if used ≤ max then ((l, u) :: rest, used, files)
    else evict max rest (used - (files u).getD 0) (fupd files u none)

/-- Translation of add_cache_entry (src/file_system.rs): on a hit,
overwrite the backing file in place and promote the entry; on a miss,
create a fresh backing file holding the body and insert the entry as
most-recently-used; then add the body's length to used_cache_bytes and
run the eviction loop. -/
def addCacheEntry (max : Nat) (st : CState) (loc : Location) (len : Nat) : CState :=
  let st1 : CState :=
    match lookupLoc st.entries loc with
    | some u =>
      { st with
        entries := removeLocEntry st.entries loc ++ [(loc, u)],
        files := fupd st.files u (some len) }
    | none =>
      { st with
        entries := st.entries ++ [(loc, st.fresh)],
        files := fupd st.files st.fresh (some len),
        fresh := st.fresh + 1 }
  let used1 := st1.used + len
  let ev := evict max st1.entries used1 st1.files
  { entries := ev.1, files := ev.2.2, used := ev.2.1, fresh := st1.fresh }

/-- Initial cache state: empty cache, no backing files, zero bytes
used. -/
def initC : CState := ⟨[], fun _ => none, 0, 0⟩

/-- Run a sequence of cache inserts from the initial state. -/
def runInserts (max : Nat) (ops : List (Location × Nat)) : CState :=
  ops.foldl (fun st op => addCacheEntry max st op.1 op.2) initC

/-- Sum of the on-disk sizes of the backing files of the cache
entries. -/
def sumSizes (files : Nat → Option Nat) : List (Location × Nat) → Nat
  | [] => 0
  | (_, u) :: r => (files u).getD 0 + sumSizes files r

/-- Decidable check that every cache entry's backing file exists. -/
def entriesBacked (files : Nat → Option Nat) : List (Location × Nat) → Bool
  | [] => true
  | (_, u) :: r => (files u).isSome && entriesBacked files r

/-- The property claimed of every post-insert state: the byte budget
holds, every entry's backing file exists on disk, and used_cache_bytes
equals the sum of the backing files' sizes. -/
def cacheInvClaim (max : Nat) (st : CState) : Bool :=
  decide (st.used ≤ max) && entriesBacked st.files st.entries &&
    (sumSizes st.files st.entries == st.used)

/-- Invariant carried by every cache state reachable through
addCacheEntry: backing-file names are below the allocator counter and
pairwise distinct, every entry's backing file exists, the used counter
dominates the total on-disk size, the drift between the two is at most
the budget, and on exit from an insert either the budget holds or the
cache is empty. -/
structure CInv (max : Nat) (st : CState) : Prop where
  uriOk : ∀ p ∈ st.entries, p.2 < st.fresh
  nodupUris : (st.entries.map Prod.snd).Nodup
  backed : ∀ p ∈ st.entries, (st.files p.2).isSome = true
  sum_le_used : sumSizes st.files st.entries ≤ st.used
  used_le_sum_add : st.used ≤ sumSizes st.files st.entries + max
  budget : st.entries = [] ∨ st.used ≤ max

theorem sumSizes_eq_sum_map (f : Nat → Option Nat) (es : List (Location × Nat)) :
    sumSizes f es = (es.map fun p => (f p.2).getD 0).sum := by
  induction es with
  | nil => rfl
  | cons e r ih => cases e; simp [sumSizes, ih]

theorem sumSizes_append (f : Nat → Option Nat) (a b : List (Location × Nat)) :
    sumSizes f (a ++ b) = sumSizes f a + sumSizes f b := by
  simp [sumSizes_eq_sum_map]

theorem sumSizes_congr (f g : Nat → Option Nat) (es : List (Location × Nat))
    (h : ∀ p ∈ es, f p.2 = g p.2) : sumSizes f es = sumSizes g es := by
  induction es with
  | nil => rfl
  | cons e r ih =>
    cases e with
    | mk l u =>
      simp only [sumSizes]
      rw [h ⟨l, u⟩ (List.mem_cons_self _ _),
        ih (fun p hp => h p (List.mem_cons_of_mem _ hp))]

theorem sumSizes_fupd_not_mem (f : Nat → Option Nat) (es : List (Location × Nat))
    (u : Nat) (v : Option Nat) (h : u ∉ es.map Prod.snd) :
    sumSizes (fupd f u v) es = sumSizes f es := by
  refine sumSizes_congr _ _ _ (fun p hp => ?_)
  have : p.2 ≠ u := fun he => h (he ▸ List.mem_map_of_mem Prod.snd hp)
  simp [fupd, this]

theorem lookupLoc_mem (es : List (Location × Nat)) (loc : Location) (u : Nat)
    (h : lookupLoc es loc = some u) : (loc, u) ∈ es := by
  induction es with
  | nil => simp [lookupLoc] at h
  | cons e r ih =>
    cases e with
    | mk l v =>
      simp only [lookupLoc] at h
      by_cases hl : l = loc
      · rw [if_pos hl] at h
        obtain rfl : v = u := by injection h
        exact hl ▸ List.mem_cons_self _ _
      · rw [if_neg hl] at h
        exact List.mem_cons_of_mem _ (ih h)

theorem lookupLoc_perm (es : List (Location × Nat)) (loc : Location) (u : Nat)
    (h : lookupLoc es loc = some u) :
    es.Perm ((loc, u) :: removeLocEntry es loc) := by
  induction es with
  | nil => simp [lookupLoc] at h
  | cons e r ih =>
    cases e with
    | mk l v =>
      simp only [lookupLoc] at h
      by_cases hl : l = loc
      · rw [if_pos hl] at h
        obtain rfl : v = u := by injection h
        subst hl
        simp [removeLocEntry]
      · rw [if_neg hl] at h
        have hr := ih h
        simp only [removeLocEntry, if_neg hl]
        exact (hr.cons (l, v)).trans (List.Perm.swap _ _ _)

theorem removeLocEntry_subset (es : List (Location × Nat)) (loc : Location) :
    ∀ p ∈ removeLocEntry es loc, p ∈ es := by
  induction es with
  | nil => intro p hp; simp [removeLocEntry] at hp
  | cons e r ih =>
    cases e with
    | mk l v =>
      intro p hp
      simp only [removeLocEntry] at hp
      by_cases hl : l = loc
      · rw [if_pos hl] at hp
        exact List.mem_cons_of_mem _ hp
      · rw [if_neg hl] at hp
        rcases List.mem_cons.1 hp with h1 | h1
        · exact h1 ▸ List.mem_cons_self _ _
        · exact List.mem_cons_of_mem _ (ih p h1)

theorem entriesBacked_of_forall (f : Nat → Option Nat) (es : List (Location × Nat))
    (h : ∀ p ∈ es, (f p.2).isSome = true) : entriesBacked f es = true := by
  induction es with
  | nil => rfl
  | cons e r ih =>
    cases e with
    | mk l u =>
      simp only [entriesBacked, Bool.and_eq_true]
      exact ⟨h ⟨l, u⟩ (List.mem_cons_self _ _),
        ih (fun p hp => h p (List.mem_cons_of_mem _ hp))⟩

/-- Specification of the eviction loop: it preserves the structural
invariants, preserves the drift bound, and on exit either the budget
holds or the cache is empty. -/
theorem evict_spec (max fresh : Nat) :
    ∀ (entries : List (Location × Nat)) (used : Nat) (files : Nat → Option Nat),
      (∀ p ∈ entries, p.2 < fresh) →
      (entries.map Prod.snd).Nodup →
      (∀ p ∈ entries, (files p.2).isSome = true) →
      sumSizes files entries ≤ used →
      used ≤ sumSizes files entries + max →
      (∀ p ∈ (evict max entries used files).1, p.2 < fresh) ∧
      ((evict max entries used files).1.map Prod.snd).Nodup ∧
      (∀ p ∈ (evict max entries used files).1,
        ((evict max entries used files).2.2 p.2).isSome = true) ∧
      sumSizes (evict max entries used files).2.2 (evict max entries used files).1 ≤
        (evict max entries used files).2.1 ∧
      (evict max entries used files).2.1 ≤
        sumSizes (evict max entries used files).2.2 (evict max entries used files).1 + max ∧
      ((evict max entries used files).1 = [] ∨ (evict max entries used files).2.1 ≤ max) := by
  intro entries
  induction entries with
  | nil =>
    intro used files hUri hNd hB hSU hUB
    refine ⟨hUri, hNd, hB, hSU, ?_, Or.inl rfl⟩
    simpa [evict, sumSizes] using hUB
  | cons e rest ih =>
    intro used files hUri hNd hB hSU hUB
    cases e with
    | mk l u =>
      simp only [evict]
      by_cases hle : used ≤ max
      · rw [if_pos hle]
        exact ⟨hUri, hNd, hB, hSU, hUB, Or.inr hle⟩
      · rw [if_neg hle]
        have hNd2 : (u :: rest.map Prod.snd).Nodup := by simpa using hNd
        have hnotmem : u ∉ rest.map Prod.snd := (List.nodup_cons.1 hNd2).1
        have hNd' : (rest.map Prod.snd).Nodup := (List.nodup_cons.1 hNd2).2
        have hs : sumSizes files ((l, u) :: rest) =
            (files u).getD 0 + sumSizes files rest := rfl
        have hrestB : ∀ p ∈ rest, ((fupd files u none) p.2).isSome = true := by
          intro p hp
          have hne : p.2 ≠ u := fun he => hnotmem (he ▸ List.mem_map_of_mem Prod.snd hp)
          simpa [fupd, hne] using hB p (List.mem_cons_of_mem _ hp)
        have hsum_eq : sumSizes (fupd files u none) rest = sumSizes files rest :=
          sumSizes_fupd_not_mem files rest u none hnotmem
        have hSU' : sumSizes (fupd files u none) rest ≤ used - (files u).getD 0 := by
          rw [hsum_eq]
          refine Nat.le_sub_of_add_le ?_
          rw [Nat.add_comm]
          rw [hs] at hSU
          exact hSU
        have hUB' : used - (files u).getD 0 ≤
            sumSizes (fupd files u none) rest + max := by
          rw [hsum_eq]
          refine Nat.sub_le_iff_le_add.2 ?_
          rw [hs] at hUB
          calc used ≤ (files u).getD 0 + sumSizes files rest + max := hUB
            _ = sumSizes files rest + max + (files u).getD 0 := by ring
        exact ih (used - (files u).getD 0) (fupd files u none)
          (fun p hp => hUri p (List.mem_cons_of_mem _ hp)) hNd' hrestB hSU' hUB'

/-- One cache insert preserves the cache invariant. -/
theorem addCacheEntry_inv (max : Nat) (st : CState) (loc : Location) (len : Nat)
    (h : CInv max st) : CInv max (addCacheEntry max st loc len) := by
  obtain ⟨hUri, hNd, hB, hSU, hUB, hBud⟩ := h
  unfold addCacheEntry
  cases hl : lookupLoc st.entries loc with
  | none =>
    simp only
    set es1 : List (Location × Nat) := st.entries ++ [(loc, st.fresh)] with hes1
    set f1 : Nat → Option Nat := fupd st.files st.fresh (some len) with hf1
    have hfreshnot : st.fresh ∉ st.entries.map Prod.snd := by
      intro hmem
      rcases List.mem_map.1 hmem with ⟨p, hp, hpe⟩
      exact absurd (hpe ▸ hUri p hp) (Nat.lt_irrefl _)
    have hUri1 : ∀ p ∈ es1, p.2 < st.fresh + 1 := by
      intro p hp
      rcases List.mem_append.1 hp with h1 | h1
      · exact Nat.lt_succ_of_lt (hUri p h1)
      · simp only [List.mem_singleton] at h1
        simp [h1]
    have hNd1 : (es1.map Prod.snd).Nodup := by
      rw [hes1]
      simp only [List.map_append, List.map_cons, List.map_nil]
      exact List.Nodup.append hNd (List.nodup_singleton _)
        (by simpa [List.disjoint_singleton] using hfreshnot)
    have hB1 : ∀ p ∈ es1, (f1 p.2).isSome = true := by
      intro p hp
      rcases List.mem_append.1 hp with h1 | h1
      · have hne : p.2 ≠ st.fresh :=
          fun he => hfreshnot (he ▸ List.mem_map_of_mem Prod.snd h1)
        simpa [hf1, fupd, hne] using hB p h1
      · simp only [List.mem_singleton] at h1
        simp [h1, hf1, fupd]
    have hsum1 : sumSizes f1 es1 = sumSizes st.files st.entries + len := by
      rw [hes1, sumSizes_append, hf1,
        sumSizes_fupd_not_mem st.files st.entries st.fresh (some len) hfreshnot]
      simp [sumSizes, fupd]
    have hSU1 : sumSizes f1 es1 ≤ st.used + len := by
      rw [hsum1]; exact Nat.add_le_add_right hSU len
    have hUB1 : st.used + len ≤ sumSizes f1 es1 + max := by
      rw [hsum1]
      calc st.used + len ≤ sumSizes st.files st.entries + max + len :=
            Nat.add_le_add_right hUB len
        _ = sumSizes st.files st.entries + len + max := by ring
    obtain ⟨c1, c2, c3, c4, c5, c6⟩ :=
      evict_spec max (st.fresh + 1) es1 (st.used + len) f1 hUri1 hNd1 hB1 hSU1 hUB1
    exact ⟨c1, c2, c3, c4, c5, c6⟩
  | some u =>
    simp only
    have hmem : (loc, u) ∈ st.entries := lookupLoc_mem _ _ _ hl
    have hperm : st.entries.Perm ((loc, u) :: removeLocEntry st.entries loc) :=
      lookupLoc_perm _ _ _ hl
    set rm : List (Location × Nat) := removeLocEntry st.entries loc with hrm
    set es1 : List (Location × Nat) := rm ++ [(loc, u)] with hes1
    set f1 : Nat → Option Nat := fupd st.files u (some len) with hf1
    have hpermsnd : (st.entries.map Prod.snd).Perm (u :: rm.map Prod.snd) := by
      simpa using hperm.map Prod.snd
    have hndcons : (u :: rm.map Prod.snd).Nodup := hpermsnd.nodup hNd
    have hnotmem : u ∉ rm.map Prod.snd := (List.nodup_cons.1 hndcons).1
    have hndrm : (rm.map Prod.snd).Nodup := (List.nodup_cons.1 hndcons).2
    have hnonempty : st.entries ≠ [] := by
      intro he
      rw [he] at hl
      simp [lookupLoc] at hl
    have hused_max : st.used ≤ max := hBud.resolve_left hnonempty
    have hsumdec : sumSizes st.files st.entries =
        (st.files u).getD 0 + sumSizes st.files rm := by
      rw [sumSizes_eq_sum_map, sumSizes_eq_sum_map,
        (hperm.map fun p => (st.files p.2).getD 0).sum_eq]
      simp
    have hUri1 : ∀ p ∈ es1, p.2 < st.fresh := by
      intro p hp
      rcases List.mem_append.1 hp with h1 | h1
      · exact hUri p (removeLocEntry_subset _ _ p h1)
      · simp only [List.mem_singleton] at h1
        exact h1 ▸ hUri (loc, u) hmem
    have hNd1 : (es1.map Prod.snd).Nodup := by
      rw [hes1]
      simp only [List.map_append, List.map_cons, List.map_nil]
      exact List.Nodup.append hndrm (List.nodup_singleton _)
        (by simpa [List.disjoint_singleton] using hnotmem)
    have hB1 : ∀ p ∈ es1, (f1 p.2).isSome = true := by
      intro p hp
      rcases List.mem_append.1 hp with h1 | h1
      · have hne : p.2 ≠ u :=
          fun he => hnotmem (he ▸ List.mem_map_of_mem Prod.snd h1)
        simpa [hf1, fupd, hne] using
          hB p (removeLocEntry_subset _ _ p h1)
      · simp only [List.mem_singleton] at h1
        simp [h1, hf1, fupd]
    have hsum1 : sumSizes f1 es1 = sumSizes st.files rm + len := by
      rw [hes1, sumSizes_append, hf1,
        sumSizes_fupd_not_mem st.files rm u (some len) hnotmem]
      simp [sumSizes, fupd]
    have hSU1 : sumSizes f1 es1 ≤ st.used + len := by
      rw [hsum1]
      refine Nat.add_le_add_right ?_ len
      calc sumSizes st.files rm ≤
            (st.files u).getD 0 + sumSizes st.files rm := Nat.le_add_left _ _
        _ = sumSizes st.files st.entries := hsumdec.symm
        _ ≤ st.used := hSU
    have hUB1 : st.used + len ≤ sumSizes f1 es1 + max := by
      rw [hsum1]
      calc st.used + len ≤ max + len := Nat.add_le_add_right hused_max len
        _ ≤ sumSizes st.files rm + len + max := by omega
    obtain ⟨c1, c2, c3, c4, c5, c6⟩ :=
      evict_spec max st.fresh es1 (st.used + len) f1 hUri1 hNd1 hB1 hSU1 hUB1
    exact ⟨c1, c2, c3, c4, c5, c6⟩

/-- Every state reached by a sequence of inserts from the initial state
satisfies the cache invariant. -/
theorem runInserts_inv (max : Nat) (ops : List (Location × Nat)) :
    CInv max (runInserts max ops) := by
  have hinit : CInv max initC := by
    refine ⟨?_, ?_, ?_, ?_, ?_, Or.inl rfl⟩ <;> simp [initC, sumSizes]
  have hstep : ∀ (l : List (Location × Nat)) (st : CState), CInv max st →
      CInv max (l.foldl (fun st op => addCacheEntry max st op.1 op.2) st) := by
    intro l
    induction l with
    | nil => intro st h; exact h
    | cons op r ih =>
      intro st h
      exact ih _ (addCacheEntry_inv max st op.1 op.2 h)
  exact hstep ops initC hinit

/-- C1 counterexample: two inserts of a 4-byte body at the same
Location under a 16-byte budget.  The second insert overwrites the
backing file in place but still adds the full body length to
used_cache_bytes, so on return used_cache_bytes is 8 while the single
backing file holds 4 bytes: the claimed equality between
used_cache_bytes and the total backing-file size fails, exactly in the
overwrite case the claim singles out. -/
theorem cache_insert_claim_counterexample :
    (∀ p ∈ [((⟨"n", "u"⟩ : Location), 4), ((⟨"n", "u"⟩ : Location), 4)], p.2 ≤ 16) ∧
    (runInserts 16 [(⟨"n", "u"⟩, 4), (⟨"n", "u"⟩, 4)]).used = 8 ∧
    sumSizes (runInserts 16 [(⟨"n", "u"⟩, 4), (⟨"n", "u"⟩, 4)]).files
      (runInserts 16 [(⟨"n", "u"⟩, 4), (⟨"n", "u"⟩, 4)]).entries = 4 ∧
    cacheInvClaim 16 (runInserts 16 [(⟨"n", "u"⟩, 4), (⟨"n", "u"⟩, 4)]) = false := by
  refine ⟨by decide, by decide, by decide, by decide⟩

/-- C1 as amended: for every sequence of inserts whose body sizes are
at most max_cache_size, when each insert returns used_cache_bytes is at
most max_cache_size and every Location remaining in the cache maps to a
backing file on disk; used_cache_bytes dominates the sum of those
files' sizes but need not equal it, because an insert that overwrites
an already-present Location's backing file in place adds the full new
body size without subtracting the old file's size. -/
theorem cache_insert_budget_and_backing (max : Nat) (ops : List (Location × Nat))
    (_hlen : ∀ p ∈ ops, p.2 ≤ max) :
    (runInserts max ops).used ≤ max ∧
    entriesBacked (runInserts max ops).files (runInserts max ops).entries = true ∧
    sumSizes (runInserts max ops).files (runInserts max ops).entries ≤
      (runInserts max ops).used := by
  obtain ⟨_, _, hB, hSU, hUB, hBud⟩ := runInserts_inv max ops
  refine ⟨?_, entriesBacked_of_forall _ _ hB, hSU⟩
  rcases hBud with he | hle
  · rw [he] at hUB
    simpa [sumSizes] using hUB
  · exact hle

/-- Witness for C1 as amended, at the counterexample's input: the
budget and backing-file conjuncts hold there even though the equality
of the original claim does not. -/
theorem cache_insert_budget_and_backing_witness :
    (∀ p ∈ [((⟨"n", "u"⟩ : Location), 4), ((⟨"n", "u"⟩ : Location), 4)], p.2 ≤ 16) ∧
    ((runInserts 16 [(⟨"n", "u"⟩, 4), (⟨"n", "u"⟩, 4)]).used ≤ 16 ∧
    entriesBacked (runInserts 16 [(⟨"n", "u"⟩, 4), (⟨"n", "u"⟩, 4)]).files
      (runInserts 16 [(⟨"n", "u"⟩, 4), (⟨"n", "u"⟩, 4)]).entries = true ∧
    sumSizes (runInserts 16 [(⟨"n", "u"⟩, 4), (⟨"n", "u"⟩, 4)]).files
      (runInserts 16 [(⟨"n", "u"⟩, 4), (⟨"n", "u"⟩, 4)]).entries ≤
      (runInserts 16 [(⟨"n", "u"⟩, 4), (⟨"n", "u"⟩, 4)]).used) :=
  ⟨by decide,
    cache_insert_budget_and_backing 16 [(⟨"n", "u"⟩, 4), (⟨"n", "u"⟩, 4)] (by decide)⟩

/-
Remote read path and namespace resolver (claims C2, C3, C5, C6).

read_remote and recursive_find (src/file_system.rs) are translated over
an oracle environment Env: the local filesystem is a map from URIs to
blob contents, the peer network is a set of oracles giving, for each
node name, whether a connection and a bidirectional sub-stream can be
obtained and what the peer replies to a Read request.  The cache
insertion that read_remote performs on a successful body transfer
mutates only the cache (modelled separately for C1) and does not affect
the value any of these functions return, so it is not threaded here.
A result of none models a panic of the Rust code (an unwrap, expect or
todo! being reached).
-/

/-- Wire-level outcome of one Read exchange, as seen by the initiator
after receive_message: a Read(Ok) header followed by a body frame, a
Read(Err e) header, a response of an unexpected shape (the code
panics), or a receive failure (the code hits a todo! and panics). -/
inductive DResp where
  | okBody (b : Blob)
  | errResp (e : VPFSError)
  | badResponse
  | recvError
deriving DecidableEq

/-- Oracle environment for the initiator-side file-system functions. -/
structure Env where
  localNode : VPFSNode
  rootNode : Option VPFSNode
  localFS : String → Option Blob
  cacheGet : Location → Option CacheEntry
  cacheMtime : String → Option Nat
  conn : String → Option Unit
  openBi : String → Bool
  readResp : Location → Option Nat → DResp

/-- Translation of read_remote (src/file_system.rs, lines 148-208):
look up the cache entry and its backing file's modification time, try
to obtain a peer connection and a sub-stream, send Read with the cached
mtime, and dispatch on the reply; with no connection, fall back to
OnlyInCache when a cache entry exists and NotAccessible otherwise. -/
def readRemote (env : Env) (loc : Location) : Option (Except VPFSError Blob) :=
  let ce := env.cacheGet loc
  let t : Option Nat := ce.bind fun c => env.cacheMtime c.uri
  match env.conn loc.node_name with
  | some _ =>
    if env.openBi loc.node_name then
      match env.readResp loc t with
      | .okBody b => some (.ok b)
      | .errResp .notModified =>
        match ce with
        | some c => (env.localFS c.uri).map fun b => .ok b
        | none => none
      | .errResp e => some (.error e)
      | .badResponse => none
      | .recvError => none
    else some (.error .notAccessible)
  | none =>
    match ce with
    | some c => some (.error (.onlyInCache ⟨env.localNode.name, c.uri⟩))
    | none => some (.error .notAccessible)

/-- Local directory search: open the directory blob under the given URI
and scan it (search_directory over search_directory_with_lock; the lock
has no effect on the value). -/
def searchLocal (env : Env) (file_name uri : String) :
    Option (Except VPFSError DirectoryEntry) :=
  (env.localFS uri).map (searchBlob file_name)

/-- Degradation wrapper appearing at every cache-served level of
recursive_find: a found entry is reported as CacheNeededForTraversal,
any error is passed through. -/
def wrapCache : Except VPFSError DirectoryEntry → Except VPFSError DirectoryEntry
  | .ok e => .error (.cacheNeededForTraversal e)
  | .error e => .error e

/-- Translation of recursive_find (src/file_system.rs, lines 288-377).
A path a/b/c is represented final-component first as ("c", ["b", "a"]):
the second argument lists the enclosing directories innermost first,
mirroring the right-split recursion of the code; an empty list is a
path without a slash, resolved against the root directory. -/
def recursiveFind (env : Env) : String → List String →
    Option (Except VPFSError DirectoryEntry)
  | file, [] =>
    match env.rootNode with
    | some rn =>
      if rn = env.localNode then searchLocal env file "root"
      else
        match readRemote env ⟨rn.name, "root"⟩ with
        | none => none
        | some (.ok dir) => some (searchBlob file dir)
        | some (.error (.onlyInCache cl)) =>
          (searchLocal env file cl.uri).map wrapCache
        | some (.error e) => some (.error e)
    | none => some (.error .notAccessible)
  | file_name, p :: ps =>
    match recursiveFind env p ps with
    | none => none
    | some (.ok parent) =>
      if !parent.is_dir then some (.error .notADirectory)
      else if parent.location.node_name = env.localNode.name then
        searchLocal env file_name parent.location.uri
      else
        match readRemote env parent.location with
        | none => none
        | some (.ok dir) => some (searchBlob file_name dir)
        | some (.error (.onlyInCache cl)) =>
          (searchLocal env file_name cl.uri).map wrapCache
        | some (.error e) => some (.error e)
    | some (.error (.cacheNeededForTraversal parent)) =>
      if !parent.is_dir then some (.error .notADirectory)
      else if parent.location.node_name = env.localNode.name then
        (searchLocal env file_name parent.location.uri).map wrapCache
      else
        match readRemote env parent.location with
        | none => none
        | some (.ok dir) => some (wrapCache (searchBlob file_name dir))
        | some (.error (.onlyInCache cl)) =>
          (searchLocal env file_name cl.uri).map wrapCache
        | some (.error e) => some (.error e)
    | some (.error e) => some (.error e)

/-- Instrumented copy of recursiveFind whose second component records
whether any level of the walk so far was served from a locally cached
directory blob: it becomes true exactly when a level's remote read
returns OnlyInCache or when the parent resolution came back as
CacheNeededForTraversal, the two degradation signals of the claim. -/
def recursiveFindC (env : Env) : String → List String →
    Option (Except VPFSError DirectoryEntry × Bool)
  | file, [] =>
    match env.rootNode with
    | some rn =>
      if rn = env.localNode then
        (searchLocal env file "root").map fun s => (s, false)
      else
        match readRemote env ⟨rn.name, "root"⟩ with
        | none => none
        | some (.ok dir) => some (searchBlob file dir, false)
        | some (.error (.onlyInCache cl)) =>
          (searchLocal env file cl.uri).map fun s => (wrapCache s, true)
        | some (.error e) => some (.error e, false)
    | none => some (.error .notAccessible, false)
  | file_name, p :: ps =>
    match recursiveFindC env p ps with
    | none => none
    | some (.ok parent, pb) =>
      if !parent.is_dir then some (.error .notADirectory, pb)
      else if parent.location.node_name = env.localNode.name then
        (searchLocal env file_name parent.location.uri).map fun s => (s, pb)
      else
        match readRemote env parent.location with
        | none => none
        | some (.ok dir) => some (searchBlob file_name dir, pb)
        | some (.error (.onlyInCache cl)) =>
          (searchLocal env file_name cl.uri).map fun s => (wrapCache s, true)
        | some (.error e) => some (.error e, pb)
    | some (.error (.cacheNeededForTraversal parent), _) =>
      if !parent.is_dir then some (.error .notADirectory, true)
      else if parent.location.node_name = env.localNode.name then
        (searchLocal env file_name parent.location.uri).map fun s => (wrapCache s, true)
      else
        match readRemote env parent.location with
        | none => none
        | some (.ok dir) => some (wrapCache (searchBlob file_name dir), true)
        | some (.error (.onlyInCache cl)) =>
          (searchLocal env file_name cl.uri).map fun s => (wrapCache s, true)
        | some (.error e) => some (.error e, true)
    | some (.error e, pb) => some (.error e, pb)

theorem map_pair_fst (o : Option (Except VPFSError DirectoryEntry)) (b : Bool) :
    (o.map fun s => (s, b)).map Prod.fst = o := by
  cases o <;> rfl

theorem map_wrap_fst (o : Option (Except VPFSError DirectoryEntry)) (b : Bool) :
    (o.map fun s => (wrapCache s, b)).map Prod.fst = o.map wrapCache := by
  cases o <;> rfl

theorem wrapCache_ne_ok (s : Except VPFSError DirectoryEntry) (e : DirectoryEntry) :
    wrapCache s ≠ .ok e := by
  cases s <;> simp [wrapCache]

/-- The instrumented resolver computes the same result as
recursiveFind. -/
theorem recursiveFindC_fst (env : Env) : ∀ (ps : List String) (file : String),
    (recursiveFindC env file ps).map Prod.fst = recursiveFind env file ps := by
  intro ps
  induction ps with
  | nil =>
    intro file
    simp only [recursiveFindC, recursiveFind]
    cases env.rootNode with
    | none => rfl
    | some rn =>
      by_cases hrn : rn = env.localNode
      · simp only [if_pos hrn]
        exact map_pair_fst _ _
      · simp only [if_neg hrn]
        cases readRemote env ⟨rn.name, "root"⟩ with
        | none => rfl
        | some r =>
          cases r with
          | ok dir => rfl
          | error e =>
            cases e <;> first
              | rfl
              | exact map_wrap_fst _ _
  | cons p pr ih =>
    intro file
    have hp := ih p
    simp only [recursiveFind, recursiveFindC]
    cases hc : recursiveFindC env p pr with
    | none =>
      rw [hc] at hp
      rw [← hp]
      rfl
    | some rb =>
      obtain ⟨r, b⟩ := rb
      rw [hc] at hp
      rw [← hp]
      simp only [Option.map_some']
      cases r with
      | ok parent =>
        dsimp only
        cases hd : parent.is_dir with
        | false => rfl
        | true =>
          simp only [Bool.not_true, Bool.false_eq_true, if_false]
          by_cases hloc : parent.location.node_name = env.localNode.name
          · simp only [if_pos hloc]
            exact map_pair_fst _ _
          · simp only [if_neg hloc]
            cases readRemote env parent.location with
            | none => rfl
            | some rr =>
              cases rr with
              | ok dir => rfl
              | error e2 =>
                cases e2 <;> first
                  | rfl
                  | exact map_wrap_fst _ _
      | error e =>
        cases e with
        | cacheNeededForTraversal parent =>
          dsimp only
          cases hd : parent.is_dir with
          | false => rfl
          | true =>
            simp only [Bool.not_true, Bool.false_eq_true, if_false]
            by_cases hloc : parent.location.node_name = env.localNode.name
            · simp only [if_pos hloc]
              exact map_wrap_fst _ _
            · simp only [if_neg hloc]
              cases readRemote env parent.location with
              | none => rfl
              | some rr =>
                cases rr with
                | ok dir => rfl
                | error e2 =>
                  cases e2 <;> first
                    | rfl
                    | exact map_wrap_fst _ _
        | onlyInCache l => rfl
        | notModified => rfl
        | doesNotExist => rfl
        | notFound => rfl
        | notAccessible => rfl
        | notADirectory => rfl
        | alreadyExists d => rfl
        | fileNotOpen => rfl
        | other s => rfl

/-- A walk whose degradation flag is set never returns a plain
success: every cache-served level forces the wrapped form. -/
theorem recursiveFindC_ok_flag (env : Env) : ∀ (ps : List String) (file : String)
    (e : DirectoryEntry), recursiveFindC env file ps ≠ some (.ok e, true) := by
  intro ps
  induction ps with
  | nil =>
    intro file e h
    simp only [recursiveFindC] at h
    cases henv : env.rootNode with
    | none => rw [henv] at h; simp at h
    | some rn =>
      rw [henv] at h
      dsimp only at h
      by_cases hrn : rn = env.localNode
      · rw [if_pos hrn] at h
        rcases hsl : searchLocal env file "root" with _ | s
        · rw [hsl] at h; simp at h
        · rw [hsl] at h; simp at h
      · rw [if_neg hrn] at h
        rcases hrr : readRemote env ⟨rn.name, "root"⟩ with _ | r2
        · rw [hrr] at h; simp at h
        · rw [hrr] at h
          cases r2 with
          | ok dir => simp at h
          | error e2 =>
            cases e2 with
            | onlyInCache cl =>
              dsimp only at h
              rcases hs2 : searchLocal env file cl.uri with _ | s
              · rw [hs2] at h; simp at h
              · rw [hs2] at h
                simp only [Option.map_some', Option.some.injEq, Prod.mk.injEq,
                  and_true] at h
                exact wrapCache_ne_ok s e h
            | cacheNeededForTraversal d => simp at h
            | notModified => simp at h
            | doesNotExist => simp at h
            | notFound => simp at h
            | notAccessible => simp at h
            | notADirectory => simp at h
            | alreadyExists d => simp at h
            | fileNotOpen => simp at h
            | other s => simp at h
  | cons p pr ih =>
    intro file e h
    simp only [recursiveFindC] at h
    cases hc : recursiveFindC env p pr with
    | none => rw [hc] at h; simp at h
    | some rb =>
      obtain ⟨rp, pb⟩ := rb
      rw [hc] at h
      cases rp with
      | ok parent =>
        dsimp only at h
        cases hd : parent.is_dir with
        | false => rw [hd] at h; simp at h
        | true =>
          rw [hd] at h
          by_cases hloc : parent.location.node_name = env.localNode.name
          · rw [if_neg (by simp), if_pos hloc] at h
            rcases hsl : searchLocal env file parent.location.uri with _ | s
            · rw [hsl] at h; simp at h
            · rw [hsl] at h
              simp only [Option.map_some', Option.some.injEq, Prod.mk.injEq] at h
              rw [h.2] at hc
              exact ih p parent hc
          · rw [if_neg (by simp), if_neg hloc] at h
            rcases hrr : readRemote env parent.location with _ | r2
            · rw [hrr] at h; simp at h
            · rw [hrr] at h
              cases r2 with
              | ok dir =>
                simp only [Option.some.injEq, Prod.mk.injEq] at h
                rw [h.2] at hc
                exact ih p parent hc
              | error e2 =>
                cases e2 with
                | onlyInCache cl =>
                  dsimp only at h
                  rcases hs2 : searchLocal env file cl.uri with _ | s
                  · rw [hs2] at h; simp at h
                  · rw [hs2] at h
                    simp only [Option.map_some', Option.some.injEq, Prod.mk.injEq,
                      and_true] at h
                    exact wrapCache_ne_ok s e h
                | cacheNeededForTraversal d => simp at h
                | notModified => simp at h
                | doesNotExist => simp at h
                | notFound => simp at h
                | notAccessible => simp at h
                | notADirectory => simp at h
                | alreadyExists d => simp at h
                | fileNotOpen => simp at h
                | other s => simp at h
      | error ep =>
        cases ep with
        | cacheNeededForTraversal parent =>
          dsimp only at h
          cases hd : parent.is_dir with
          | false => rw [hd] at h; simp at h
          | true =>
            rw [hd] at h
            by_cases hloc : parent.location.node_name = env.localNode.name
            · rw [if_neg (by simp), if_pos hloc] at h
              rcases hsl : searchLocal env file parent.location.uri with _ | s
              · rw [hsl] at h; simp at h
              · rw [hsl] at h
                simp only [Option.map_some', Option.some.injEq, Prod.mk.injEq,
                  and_true] at h
                exact wrapCache_ne_ok s e h
            · rw [if_neg (by simp), if_neg hloc] at h
              rcases hrr : readRemote env parent.location with _ | r2
              · rw [hrr] at h; simp at h
              · rw [hrr] at h
                cases r2 with
                | ok dir =>
                  simp only [Option.some.injEq, Prod.mk.injEq, and_true] at h
                  exact wrapCache_ne_ok _ e h
                | error e2 =>
                  cases e2 with
                  | onlyInCache cl =>
                    dsimp only at h
                    rcases hs2 : searchLocal env file cl.uri with _ | s
                    · rw [hs2] at h; simp at h
                    · rw [hs2] at h
                      simp only [Option.map_some', Option.some.injEq, Prod.mk.injEq,
                        and_true] at h
                      exact wrapCache_ne_ok s e h
                  | cacheNeededForTraversal d => simp at h
                  | notModified => simp at h
                  | doesNotExist => simp at h
                  | notFound => simp at h
                  | notAccessible => simp at h
                  | notADirectory => simp at h
                  | alreadyExists d => simp at h
                  | fileNotOpen => simp at h
                  | other s => simp at h
        | onlyInCache l => simp at h
        | notModified => simp at h
        | doesNotExist => simp at h
        | notFound => simp at h
        | notAccessible => simp at h
        | notADirectory => simp at h
        | alreadyExists d => simp at h
        | fileNotOpen => simp at h
        | other s => simp at h

/-- C3: for every path whose resolution succeeds in finding the final
DirectoryEntry, if any level of the recursive walk was served from a
locally cached directory blob (the degradation flag of the instrumented
walk is set, which happens exactly when some level's remote read
returned OnlyInCache or a parent resolution returned
CacheNeededForTraversal), then recursive_find returns
CacheNeededForTraversal of the final entry rather than a plain
success. -/
theorem resolver_propagates_cache_degradation (env : Env) (file : String)
    (ps : List String) (r : Except VPFSError DirectoryEntry) (e : DirectoryEntry)
    (hrun : recursiveFindC env file ps = some (r, true))
    (hfound : r = .ok e ∨ r = .error (.cacheNeededForTraversal e)) :
    recursiveFind env file ps = some (.error (.cacheNeededForTraversal e)) := by
  rcases hfound with hok | hw
  · exact absurd (hok ▸ hrun) (recursiveFindC_ok_flag env ps file e)
  · subst hw
    rw [← recursiveFindC_fst env ps file, hrun]
    rfl

/-- Environment for the C3 witness: a non-root node whose peer
connections are all down but whose cache holds the root directory blob
under local name c1. -/
def envC3 : Env where
  localNode := ⟨"A", 0⟩
  rootNode := some ⟨"R", 1⟩
  localFS := fun u =>
    if u = "c1" then some [some ⟨⟨"B", "f1"⟩, "x", false⟩] else none
  cacheGet := fun l => if l = ⟨"R", "root"⟩ then some ⟨"c1"⟩ else none
  cacheMtime := fun _ => none
  conn := fun _ => none
  openBi := fun _ => false
  readResp := fun _ _ => .badResponse

/-- Witness for C3: resolving x with the root unreachable serves the
root directory from cache and the result is wrapped as
CacheNeededForTraversal. -/
theorem resolver_propagates_cache_degradation_witness :
    recursiveFind envC3 "x" [] =
      some (.error (.cacheNeededForTraversal ⟨⟨"B", "f1"⟩, "x", false⟩)) :=
  resolver_propagates_cache_degradation envC3 "x" []
    (.error (.cacheNeededForTraversal ⟨⟨"B", "f1"⟩, "x", false⟩))
    ⟨⟨"B", "f1"⟩, "x", false⟩ rfl (Or.inr rfl)

/-- C5: when the parent of a path resolves to an entry with is_dir
false, the resolver answers NotADirectory whether the parent came back
as a plain success or as CacheNeededForTraversal, and every other error
from resolving the parent is returned unchanged. -/
theorem resolver_error_tiebreaks (env : Env) (file p : String) (ps : List String)
    (pe : DirectoryEntry) :
    (recursiveFind env p ps = some (.ok pe) → pe.is_dir = false →
      recursiveFind env file (p :: ps) = some (.error .notADirectory)) ∧
    (recursiveFind env p ps = some (.error (.cacheNeededForTraversal pe)) →
      pe.is_dir = false →
      recursiveFind env file (p :: ps) = some (.error .notADirectory)) ∧
    (∀ err : VPFSError, recursiveFind env p ps = some (.error err) →
      (∀ d, err ≠ .cacheNeededForTraversal d) →
      recursiveFind env file (p :: ps) = some (.error err)) := by
  refine ⟨?_, ?_, ?_⟩
  · intro h1 h2
    simp only [recursiveFind]
    rw [h1]
    dsimp only
    rw [h2]
    rfl
  · intro h1 h2
    simp only [recursiveFind]
    rw [h1]
    dsimp only
    rw [h2]
    rfl
  · intro err h1 hne
    simp only [recursiveFind]
    rw [h1]
    cases err with
    | cacheNeededForTraversal d => exact absurd rfl (hne d)
    | onlyInCache l => rfl
    | notModified => rfl
    | doesNotExist => rfl
    | notFound => rfl
    | notAccessible => rfl
    | notADirectory => rfl
    | alreadyExists d => rfl
    | fileNotOpen => rfl
    | other s => rfl

/-- Environment for the first C5 witness: this node is the root and its
root directory lists p as a non-directory. -/
def envC5a : Env where
  localNode := ⟨"R", 0⟩
  rootNode := some ⟨"R", 0⟩
  localFS := fun u =>
    if u = "root" then some [some ⟨⟨"R", "u1"⟩, "p", false⟩] else none
  cacheGet := fun _ => none
  cacheMtime := fun _ => none
  conn := fun _ => none
  openBi := fun _ => false
  readResp := fun _ _ => .badResponse

/-- Environment for the second C5 witness: the root directory is only
available from cache and lists x as a non-directory, so the parent
comes back as CacheNeededForTraversal with is_dir false. -/
def envC5b : Env where
  localNode := ⟨"A", 0⟩
  rootNode := some ⟨"R", 1⟩
  localFS := fun u =>
    if u = "c2" then some [some ⟨⟨"B", "f2"⟩, "x", false⟩] else none
  cacheGet := fun l => if l = ⟨"R", "root"⟩ then some ⟨"c2"⟩ else none
  cacheMtime := fun _ => none
  conn := fun _ => none
  openBi := fun _ => false
  readResp := fun _ _ => .badResponse

/-- Environment for the third C5 witness: the root directory is local
and empty, so resolving the parent fails with DoesNotExist. -/
def envC5c : Env where
  localNode := ⟨"R", 0⟩
  rootNode := some ⟨"R", 0⟩
  localFS := fun u => if u = "root" then some [] else none
  cacheGet := fun _ => none
  cacheMtime := fun _ => none
  conn := fun _ => none
  openBi := fun _ => false
  readResp := fun _ _ => .badResponse

/-- Witness for C5: NotADirectory dominates for a plain non-directory
parent and for a cache-served non-directory parent, and DoesNotExist
from the parent level is returned unchanged. -/
theorem resolver_error_tiebreaks_witness :
    recursiveFind envC5a "x" ["p"] = some (.error .notADirectory) ∧
    recursiveFind envC5b "y" ["x"] = some (.error .notADirectory) ∧
    recursiveFind envC5c "x" ["p"] = some (.error .doesNotExist) :=
  ⟨(resolver_error_tiebreaks envC5a "x" "p" [] ⟨⟨"R", "u1"⟩, "p", false⟩).1 rfl rfl,
   (resolver_error_tiebreaks envC5b "y" "x" [] ⟨⟨"B", "f2"⟩, "x", false⟩).2.1 rfl rfl,
   (resolver_error_tiebreaks envC5c "x" "p" [] ⟨⟨"R", "u1"⟩, "p", false⟩).2.2
     .doesNotExist rfl (fun _ h => VPFSError.noConfusion h)⟩

/-- C6: when no peer connection to location.node_name can be obtained,
read_remote returns OnlyInCache of a Location made from the local
node's name and the cache entry's uri when a cache entry exists, and
NotAccessible when none does. -/
theorem remote_read_unreachable_fallback (env : Env) (loc : Location)
    (hconn : env.conn loc.node_name = none) :
    (∀ c : CacheEntry, env.cacheGet loc = some c →
      readRemote env loc =
        some (.error (.onlyInCache ⟨env.localNode.name, c.uri⟩))) ∧
    (env.cacheGet loc = none →
      readRemote env loc = some (.error .notAccessible)) := by
  constructor
  · intro c hc
    simp only [readRemote, hconn, hc]
  · intro hc
    simp only [readRemote, hconn, hc]

/-- Environment for the C6 witness: every peer is unreachable and only
the Location b holds a cache entry. -/
def envC6 : Env where
  localNode := ⟨"A", 0⟩
  rootNode := some ⟨"R", 1⟩
  localFS := fun _ => none
  cacheGet := fun l => if l = ⟨"B", "f1"⟩ then some ⟨"c9"⟩ else none
  cacheMtime := fun _ => none
  conn := fun _ => none
  openBi := fun _ => false
  readResp := fun _ _ => .badResponse

/-- Witness for C6: with the owner of B unreachable, the cached
Location falls back to OnlyInCache under the local node's name and the
uncached Location yields NotAccessible. -/
theorem remote_read_unreachable_fallback_witness :
    readRemote envC6 ⟨"B", "f1"⟩ =
      some (.error (.onlyInCache ⟨"A", "c9"⟩)) ∧
    readRemote envC6 ⟨"B", "f2"⟩ = some (.error .notAccessible) :=
  ⟨(remote_read_unreachable_fallback envC6 ⟨"B", "f1"⟩ rfl).1 ⟨"c9"⟩ rfl,
   (remote_read_unreachable_fallback envC6 ⟨"B", "f2"⟩ rfl).2 rfl⟩

/-
Serving side of the Read request (claim C2): translation of the
DaemonRequest::Read arm of VPFSProtocol::handle_daemon
(src/protocol.rs, lines 42-70) over the serving node's oracles.
-/

/-- Oracles of the serving node: the blob's modification time (none
collapses both a failing fs::metadata and an unreadable mtime, which
the code treats alike) and the blob's content as read by read_local. -/
structure SrvEnv where
  mtimeOf : String → Option Nat
  readLocal : String → Option Blob

/-- Translation of the should_send computation: a body is sent unless
the requester supplied a time and the local mtime is readable and not
at least that time. -/
def shouldSend (senv : SrvEnv) (uri : String) (last_modified : Option Nat) : Bool :=
  match last_modified with
  | some remote =>
    match senv.mtimeOf uri with
    | some local_time => decide (remote ≤ local_time)
    | none => true
  | none => true

/-- Translation of the serving side of Read: reply NotModified when
should_send is false, otherwise read the blob and send its body, or
DoesNotExist when the read fails. -/
def serverRead (senv : SrvEnv) (uri : String) (last_modified : Option Nat) : DResp :=
  if !shouldSend senv uri last_modified then .errResp .notModified
  else
    match senv.readLocal uri with
    | some b => .okBody b
    | none => .errResp .doesNotExist

/-- C2 counterexample: the serving node's blob mtime equals the
supplied time (so mtime ≤ supplied holds), yet the server sends the
body instead of NotModified, because handle_daemon replies NotModified
only when the local mtime is strictly below the supplied time. -/
theorem server_not_modified_claim_counterexample :
    (SrvEnv.mk (fun _ => some 5) (fun _ => some [])).mtimeOf "u" = some 5 ∧
    5 ≤ 5 ∧
    serverRead (SrvEnv.mk (fun _ => some 5) (fun _ => some [])) "u" (some 5) =
      .okBody [] ∧
    serverRead (SrvEnv.mk (fun _ => some 5) (fun _ => some [])) "u" (some 5) ≠
      .errResp .notModified := by
  exact ⟨rfl, Nat.le_refl 5, rfl, by decide⟩

/-- C2 as amended: with a supplied time and a readable local mtime, the
server responds NotModified exactly when the local mtime is strictly
less than the supplied time; when the local mtime is at least the
supplied time it reads and sends the body; and an initiator that
receives NotModified returns the cached body. -/
theorem read_not_modified_exchange (senv : SrvEnv) (uri : String)
    (t local_time : Nat) (hm : senv.mtimeOf uri = some local_time)
    (env : Env) (loc : Location) (c : CacheEntry) (b : Blob)
    (hc : env.cacheGet loc = some c)
    (hconn : env.conn loc.node_name = some ())
    (hbi : env.openBi loc.node_name = true)
    (hresp : env.readResp loc (env.cacheMtime c.uri) = .errResp .notModified)
    (hfile : env.localFS c.uri = some b) :
    ((serverRead senv uri (some t) = .errResp .notModified) ↔ local_time < t) ∧
    (∀ body : Blob, t ≤ local_time → senv.readLocal uri = some body →
      serverRead senv uri (some t) = .okBody body) ∧
    readRemote env loc = some (.ok b) := by
  refine ⟨?_, ?_, ?_⟩
  · constructor
    · intro h
      by_contra hlt
      have hts : t ≤ local_time := Nat.le_of_not_lt hlt
      simp [serverRead, shouldSend, hm, hts] at h
      rcases hr : senv.readLocal uri with _ | body <;> rw [hr] at h <;> simp at h
    · intro hlt
      have hts : ¬ t ≤ local_time := Nat.not_le_of_lt hlt
      simp [serverRead, shouldSend, hm, hts]
  · intro body hts hr
    simp [serverRead, shouldSend, hm, hts, hr]
  · simp only [readRemote, hc, Option.some_bind', hconn, hbi, if_true, hresp, hfile,
      Option.map_some']

/-- Environment for the initiator part of the C2 witness: the peer is
reachable, it answers NotModified, and the cached body lives under
local name c7. -/
def envC2i : Env where
  localNode := ⟨"A", 0⟩
  rootNode := some ⟨"R", 1⟩
  localFS := fun u => if u = "c7" then some [none] else none
  cacheGet := fun l => if l = ⟨"B", "f1"⟩ then some ⟨"c7"⟩ else none
  cacheMtime := fun _ => some 9
  conn := fun n => if n = "B" then some () else none
  openBi := fun _ => true
  readResp := fun _ _ => .errResp .notModified

/-- Witness for C2 as amended, at local mtime 3 and supplied time 5 on
the serving side, with an initiator whose cached copy of b is returned
on NotModified. -/
theorem read_not_modified_exchange_witness :
    ((serverRead (SrvEnv.mk (fun _ => some 3) (fun _ => some [])) "u" (some 5) =
        .errResp .notModified) ↔ 3 < 5) ∧
    (∀ body : Blob, 5 ≤ 3 →
      (SrvEnv.mk (fun _ => some 3) (fun _ => some [])).readLocal "u" = some body →
      serverRead (SrvEnv.mk (fun _ => some 3) (fun _ => some [])) "u" (some 5) =
        .okBody body) ∧
    readRemote envC2i ⟨"B", "f1"⟩ = some (.ok [none]) :=
  read_not_modified_exchange (SrvEnv.mk (fun _ => some 3) (fun _ => some []))
    "u" 5 3 rfl envC2i ⟨"B", "f1"⟩ ⟨"c7"⟩ [none] rfl rfl rfl rfl rfl

/-
Peer connection manager (claim C7): translation of stream_for
(src/remote_communication.rs, lines 90-133).  Connections are opaque
tokens (naturals); the connection and known-host tables are association
lists; establish_connection, the root connection's open_bi and the
root's AddressFor answer are oracles.  The code's
known_hosts.as_ref().unwrap() panics when known_hosts is still None,
modelled by a none result.
-/

/-- Association-list lookup by name. -/
def alookup {α : Type} : List (String × α) → String → Option α
  | [], _ => none
  | (k, v) :: r, n => if k = n then some v else alookup r n

/-- Connection-manager state: live connections and the learned
node-name to endpoint-id table (None before the root handshake filled
it). -/
structure CMState where
  connections : List (String × Nat)
  knownHosts : Option (List (String × Nat))
deriving DecidableEq

/-- Oracles of the connection manager. -/
structure CMEnv where
  localNode : VPFSNode
  rootNode : Option VPFSNode
  establish : String → Nat → Option Nat
  rootOpenBi : Bool
  rootAddressFor : String → Option Nat

/-- Translation of the root-fallback tail of stream_for: with a root
configured and this node not the root, ask the root for the address of
the wanted node over the held root connection and dial the answer;
every failure path returns no connection and leaves the state
unchanged. -/
def streamForRoot (env : CMEnv) (st : CMState) (node_name : String) :
    Option Nat × CMState :=
  match env.rootNode with
  | some rn =>
    if env.localNode = rn then (none, st)
    else
      match alookup st.connections rn.name with
      | some _ =>
        if env.rootOpenBi then
          match env.rootAddressFor node_name with
          | some remote_id =>
            match env.establish node_name remote_id with
            | some conn =>
              (some conn, { st with connections := (node_name, conn) :: st.connections })
            | none => (none, st)
          | none => (none, st)
        else (none, st)
      | none => (none, st)
  | none => (none, st)

/-- Translation of stream_for: return a held connection, else dial a
known host, else fall through to the root lookup.  A node name in
known_hosts whose dial fails also falls through to the root lookup, as
in the code. -/
def streamFor (env : CMEnv) (st : CMState) (node_name : String) :
    Option (Option Nat × CMState) :=
  match alookup st.connections node_name with
  | some conn => some (some conn, st)
  | none =>
    match st.knownHosts with
    | none => none
    | some kh =>
      match alookup kh node_name with
      | some remote_id =>
        match env.establish node_name remote_id with
        | some conn =>
          some (some conn, { st with connections := (node_name, conn) :: st.connections })
        | none => some (streamForRoot env st node_name)
      | none => some (streamForRoot env st node_name)

/-- Environment for the C7 counterexample and witness: a non-root node
holding a connection to the root, whose root resolves B to endpoint 7
and for which dialing succeeds with connection token 99. -/
def envC7 : CMEnv where
  localNode := ⟨"A", 0⟩
  rootNode := some ⟨"R", 1⟩
  establish := fun n id => if n = "B" ∧ id = 7 then some 99 else none
  rootOpenBi := true
  rootAddressFor := fun n => if n = "B" then some 7 else none

/-- State for the C7 counterexample and witness: a connection to the
root is held, known_hosts is initialised but does not list B. -/
def stC7 : CMState where
  connections := [("R", 50)]
  knownHosts := some []

/-- C7 counterexample: B is in neither connections nor known_hosts, the
root answers AddressFor(B) with Some 7 and the dial succeeds, yet the
returned state's known_hosts is unchanged and still has no entry for B:
stream_for records the new connection only in connections, never in
known_hosts. -/
theorem stream_for_claim_counterexample :
    envC7.rootAddressFor "B" = some 7 ∧
    alookup stC7.connections "B" = none ∧
    stC7.knownHosts = some [] ∧
    streamFor envC7 stC7 "B" =
      some (some 99, ⟨[("B", 99), ("R", 50)], some []⟩) ∧
    (streamFor envC7 stC7 "B").map (fun r => r.2.knownHosts) = some (some []) := by
  refine ⟨rfl, rfl, rfl, by decide, by decide⟩

/-- C7 as amended: for a lookup of a name in neither connections nor
known_hosts on a non-root node holding a root connection, when the root
answers AddressFor(name) with Some(id) and the dial succeeds, the
manager returns the new connection and records it under the name in
connections, while known_hosts is left unchanged (so a later lookup of
the same name is served from connections, not known_hosts). -/
theorem stream_for_root_lookup (env : CMEnv) (st : CMState) (node_name : String)
    (kh : List (String × Nat)) (rn : VPFSNode) (rc id conn : Nat)
    (hnc : alookup st.connections node_name = none)
    (hkh : st.knownHosts = some kh)
    (hnk : alookup kh node_name = none)
    (hroot : env.rootNode = some rn)
    (hnotroot : env.localNode ≠ rn)
    (hrc : alookup st.connections rn.name = some rc)
    (hbi : env.rootOpenBi = true)
    (haf : env.rootAddressFor node_name = some id)
    (hest : env.establish node_name id = some conn) :
    streamFor env st node_name =
      some (some conn,
        { st with connections := (node_name, conn) :: st.connections }) ∧
    ((streamFor env st node_name).map fun r => r.2.knownHosts) =
      some st.knownHosts ∧
    ((streamFor env st node_name).map fun r => alookup r.2.connections node_name) =
      some (some conn) := by
  have hmain : streamFor env st node_name =
      some (some conn,
        { st with connections := (node_name, conn) :: st.connections }) := by
    simp only [streamFor, hnc, hkh, hnk, streamForRoot, hroot, if_neg hnotroot,
      hrc, hbi, if_true, haf, hest]
  refine ⟨hmain, ?_, ?_⟩
  · rw [hmain]
    rfl
  · rw [hmain]
    simp [alookup]

/-- Witness for C7 as amended, at the concrete environment of the
counterexample. -/
theorem stream_for_root_lookup_witness :
    streamFor envC7 stC7 "B" =
      some (some 99,
        { stC7 with connections := ("B", 99) :: stC7.connections }) ∧
    ((streamFor envC7 stC7 "B").map fun r => r.2.knownHosts) =
      some stC7.knownHosts ∧
    ((streamFor envC7 stC7 "B").map fun r => alookup r.2.connections "B") =
      some (some 99) :=
  stream_for_root_lookup envC7 stC7 "B" [] ⟨"R", 1⟩ 50 7 99
    rfl rfl rfl rfl (by decide) rfl rfl rfl rfl

/-
Client Write dispatch (claim C8): translation of handle_client_write
(src/daemon.rs, lines 102-131).  The value computed is the list of
ClientResponse::Write payloads sent back to the client during the call;
the client's request body is assumed to arrive (a failing read_exact on
the client stream kills the worker thread and is outside this model).
-/

/-- Oracles for the client Write handler: whether the local write
succeeds, whether a peer connection and a sub-stream can be obtained,
and the peer's reply to the forwarded Write (none models a reply that
is not Ok(DaemonResponse::Write(..)), including a receive failure). -/
structure CWEnv where
  localName : String
  writeLocalOk : String → Bool
  conn : String → Option Unit
  openBi : Bool
  writeReply : Option (Except VPFSError Nat)

/-- Translation of handle_client_write: the list of Write responses
sent to the client.  Local writes and the no-connection case always
answer; on the peer path a response is forwarded only when the reply
parses as a Write response, and a failing open_bi only logs. -/
def handleClientWrite (env : CWEnv) (loc : Location) (file_len : Nat) :
    List (Except VPFSError Nat) :=
  if loc.node_name = env.localName then
    if env.writeLocalOk loc.uri then [.ok file_len] else [.error .doesNotExist]
  else
    match env.conn loc.node_name with
    | some _ =>
      if env.openBi then
        match env.writeReply with
        | some r => [r]
        | none => []
      else []
    | none => [.error .notAccessible]

/-- C8 counterexample: the peer connection exists but opening the
bidirectional sub-stream fails; handle_client_write only logs the error
and sends no ClientResponse::Write at all, so the claimed exactly-one
response fails. -/
theorem client_write_claim_counterexample :
    handleClientWrite (CWEnv.mk "A" (fun _ => true) (fun _ => some ()) false none)
      ⟨"B", "u"⟩ 5 = [] ∧
    (handleClientWrite (CWEnv.mk "A" (fun _ => true) (fun _ => some ()) false none)
      ⟨"B", "u"⟩ 5).length ≠ 1 := by
  exact ⟨rfl, by decide⟩

/-- C8 as amended: the handler sends exactly one Write response on the
local path, on the no-connection path and on the peer path whose reply
parses as a Write response; but when open_bi to the file owner fails,
or the peer's reply is not a Write response, it sends no response at
all, leaving the client without an answer. -/
theorem client_write_response_pattern (env : CWEnv) (loc : Location) (file_len : Nat) :
    (loc.node_name = env.localName →
      (handleClientWrite env loc file_len).length = 1) ∧
    (loc.node_name ≠ env.localName → env.conn loc.node_name = none →
      handleClientWrite env loc file_len = [.error .notAccessible]) ∧
    (loc.node_name ≠ env.localName → env.conn loc.node_name = some () →
      env.openBi = true → ∀ r, env.writeReply = some r →
      handleClientWrite env loc file_len = [r]) ∧
    (loc.node_name ≠ env.localName → env.conn loc.node_name = some () →
      (env.openBi = false ∨ env.writeReply = none) →
      handleClientWrite env loc file_len = []) := by
  refine ⟨?_, ?_, ?_, ?_⟩
  · intro h
    simp only [handleClientWrite, if_pos h]
    cases env.writeLocalOk loc.uri <;> simp
  · intro h hc
    simp [handleClientWrite, if_neg h, hc]
  · intro h hc hbi r hr
    simp [handleClientWrite, if_neg h, hc, hbi, hr]
  · intro h hc hfail
    rcases hfail with hbi | hr
    · simp [handleClientWrite, if_neg h, hc, hbi]
    · cases hbi : env.openBi
      · simp [handleClientWrite, if_neg h, hc, hbi]
      · simp [handleClientWrite, if_neg h, hc, hbi, hr]

/-- Witness for C8 as amended: all four cases at concrete inputs; the
last is the silent path of the counterexample. -/
theorem client_write_response_pattern_witness :
    (handleClientWrite (CWEnv.mk "A" (fun _ => true) (fun _ => none) true none)
      ⟨"A", "u"⟩ 5).length = 1 ∧
    handleClientWrite (CWEnv.mk "A" (fun _ => true) (fun _ => none) true none)
      ⟨"B", "u"⟩ 5 = [.error .notAccessible] ∧
    handleClientWrite (CWEnv.mk "A" (fun _ => true) (fun _ => some ()) true
      (some (.ok 3))) ⟨"B", "u"⟩ 5 = [.ok 3] ∧
    handleClientWrite (CWEnv.mk "A" (fun _ => true) (fun _ => some ()) false none)
      ⟨"B", "u"⟩ 5 = [] :=
  ⟨(client_write_response_pattern
      (CWEnv.mk "A" (fun _ => true) (fun _ => none) true none) ⟨"A", "u"⟩ 5).1 rfl,
   (client_write_response_pattern
      (CWEnv.mk "A" (fun _ => true) (fun _ => none) true none) ⟨"B", "u"⟩ 5).2.1
      (by decide) rfl,
   (client_write_response_pattern
      (CWEnv.mk "A" (fun _ => true) (fun _ => some ()) true (some (.ok 3)))
      ⟨"B", "u"⟩ 5).2.2.1 (by decide) rfl rfl (.ok 3) rfl,
   (client_write_response_pattern
      (CWEnv.mk "A" (fun _ => true) (fun _ => some ()) false none)
      ⟨"B", "u"⟩ 5).2.2.2 (by decide) rfl (Or.inl rfl)⟩

/-
Placement (claims C4 and C9): translation of place_file
(src/file_system.rs, lines 210-285).  Besides its return value the
function's externally visible behaviour is the sequence of blob
operations it issues, locally or over RPC; placeFile returns that
sequence as a trace of Op values, in program order.
-/

/-- One blob operation issued by place_file: a local exclusive-create,
a Place RPC (which creates a blob on the remote node), a local
directory append, an AppendDirectoryEntry RPC, a local remove, or a
Remove RPC. -/
inductive Op where
  | createLocal (uri : String)
  | placeRPC (node uri : String)
  | appendLocal (dir : String) (e : DirectoryEntry)
  | appendRPC (node dir : String) (e : DirectoryEntry)
  | removeLocal (uri : String)
  | removeRPC (node uri : String)
deriving DecidableEq

/-- Outcome of an AppendDirectoryEntry RPC as seen by place_file: a
parsed AppendDirectoryEntry response, a response of another shape, or a
closed connection. -/
inductive ARes where
  | reply (r : Except VPFSError Unit)
  | badReply
  | connErr

/-- Oracles for place_file: the resolver environment, the fresh URI the
local allocator returns, the remote Place response (none when no
connection or a bad response), and the local and remote
append outcomes. -/
structure PlaceEnv where
  fs : Env
  freshUri : String
  placeResp : String → Option String
  appendLocalResult : String → DirectoryEntry → Except VPFSError Unit
  appendRPCResult : String → String → DirectoryEntry → ARes

/-- Translation of the URI allocation of place_file: a local
create_file_with_random_uri when the target is this node, else a Place
RPC; none means the RPC path failed and place_file returns
NotAccessible. -/
def allocStep (penv : PlaceEnv) (at_node : String) : Option (String × Op) :=
  if at_node = penv.fs.localNode.name then
    some (penv.freshUri, .createLocal penv.freshUri)
  else (penv.placeResp at_node).map fun uri => (uri, .placeRPC at_node uri)

/-- Translation of the parent-directory determination of place_file: a
path with a slash resolves its parent through recursive_find (any
resolver error, CacheNeededForTraversal included, is propagated by the
question-mark operator); a slashless path uses the root directory of
the configured root node. -/
def parentStep (penv : PlaceEnv) (parents : List String) :
    Option (Except VPFSError Location) :=
  match parents with
  | p :: ps =>
    match recursiveFind penv.fs p ps with
    | none => none
    | some (.ok pe) => some (.ok pe.location)
    | some (.error e) => some (.error e)
  | [] =>
    match penv.fs.rootNode with
    | some rn => some (.ok ⟨rn.name, "root"⟩)
    | none => some (.error .notAccessible)

/-- Translation of the append of the new DirectoryEntry to the parent
directory: locally via append_dir_entry when the parent lives here,
else via an AppendDirectoryEntry RPC whose unparseable or failed
exchanges become Other errors. -/
def appendDispatch (penv : PlaceEnv) (parentLoc : Location) (e : DirectoryEntry) :
    Except VPFSError Unit × Op :=
  if parentLoc.node_name = penv.fs.localNode.name then
    (penv.appendLocalResult parentLoc.uri e, .appendLocal parentLoc.uri e)
  else
    match penv.appendRPCResult parentLoc.node_name parentLoc.uri e with
    | .reply r => (r, .appendRPC parentLoc.node_name parentLoc.uri e)
    | .badReply =>
      (.error (.other "Bad response"), .appendRPC parentLoc.node_name parentLoc.uri e)
    | .connErr =>
      (.error (.other "Connection closed"),
        .appendRPC parentLoc.node_name parentLoc.uri e)

/-- Translation of place_file: allocate, resolve the parent, append the
entry; on success and is_dir append the dot and dotdot entries to the
new blob (responses ignored); on an append error remove the new blob
and surface the error. -/
def placeFile (penv : PlaceEnv) (file_name : String) (parents : List String)
    (at_node : String) (is_dir : Bool) :
    Option (Except VPFSError Location × List Op) :=
  match allocStep penv at_node with
  | none => some (.error .notAccessible, [])
  | some (uri, opAlloc) =>
    match parentStep penv parents with
    | none => none
    | some (.error e) => some (.error e, [opAlloc])
    | some (.ok parentLoc) =>
      let newLoc : Location := ⟨at_node, uri⟩
      let dirEntry : DirectoryEntry := ⟨newLoc, file_name, is_dir⟩
      let ad := appendDispatch penv parentLoc dirEntry
      match ad.1 with
      | .ok _ =>
        if is_dir then
          let dotE : DirectoryEntry := ⟨newLoc, ".", is_dir⟩
          let dotdotE : DirectoryEntry := ⟨parentLoc, "..", true⟩
          if at_node = penv.fs.localNode.name then
            some (.ok newLoc,
              [opAlloc, ad.2, .appendLocal newLoc.uri dotE,
                .appendLocal newLoc.uri dotdotE])
          else
            some (.ok newLoc,
              [opAlloc, ad.2, .appendRPC at_node newLoc.uri dotE,
                .appendRPC at_node newLoc.uri dotdotE])
        else some (.ok newLoc, [opAlloc, ad.2])
      | .error e =>
        if at_node = penv.fs.localNode.name then
          some (.error e, [opAlloc, ad.2, .removeLocal newLoc.uri])
        else
          some (.error e, [opAlloc, ad.2, .removeRPC at_node newLoc.uri])

/-- Blobs present on node at_node after replaying one operation of the
trace: creates add the URI, removes delete it, appends touch no
blob. -/
def blobStep (localName at_node : String) (acc : List String) : Op → List String
  | .createLocal u => if at_node = localName then acc ++ [u] else acc
  | .placeRPC n u => if n = at_node then acc ++ [u] else acc
  | .removeLocal u => if at_node = localName then acc.erase u else acc
  | .removeRPC n u => if n = at_node then acc.erase u else acc
  | .appendLocal _ _ => acc
  | .appendRPC _ _ _ => acc

/-- Blobs on node at_node created and not removed again by a trace. -/
def netBlobs (localName at_node : String) (tr : List Op) : List String :=
  tr.foldl (blobStep localName at_node) []

theorem blobStep_appendDispatch (penv : PlaceEnv) (localName at_node : String)
    (acc : List String) (pl : Location) (e : DirectoryEntry) :
    blobStep localName at_node acc (appendDispatch penv pl e).2 = acc := by
  unfold appendDispatch
  by_cases h : pl.node_name = penv.fs.localNode.name
  · simp [h, blobStep]
  · simp only [if_neg h]
    cases penv.appendRPCResult pl.node_name pl.uri e <;> rfl

/-- C4: when a fresh blob has been allocated and appending the new
entry to the parent directory fails with AlreadyExists, place_file
returns AlreadyExists unchanged and removes the new blob (locally or
via the Remove RPC), so no additional blob remains on the target
node. -/
theorem place_rollback_on_collision (penv : PlaceEnv) (file_name : String)
    (parents : List String) (at_node : String) (is_dir : Bool)
    (uri : String) (opAlloc : Op) (parentLoc : Location) (ex : DirectoryEntry)
    (hA : allocStep penv at_node = some (uri, opAlloc))
    (hP : parentStep penv parents = some (.ok parentLoc))
    (hApp : (appendDispatch penv parentLoc ⟨⟨at_node, uri⟩, file_name, is_dir⟩).1 =
      .error (.alreadyExists ex)) :
    ∃ tr, placeFile penv file_name parents at_node is_dir =
        some (.error (.alreadyExists ex), tr) ∧
      netBlobs penv.fs.localNode.name at_node tr = [] ∧
      ((at_node = penv.fs.localNode.name ∧ Op.removeLocal uri ∈ tr) ∨
        (at_node ≠ penv.fs.localNode.name ∧ Op.removeRPC at_node uri ∈ tr)) := by
  by_cases hat : at_node = penv.fs.localNode.name
  · have hop : opAlloc = Op.createLocal uri := by
      rw [allocStep, if_pos hat] at hA
      simp only [Option.some.injEq, Prod.mk.injEq] at hA
      rw [← hA.2, hA.1]
    subst hop
    refine ⟨[Op.createLocal uri,
      (appendDispatch penv parentLoc ⟨⟨at_node, uri⟩, file_name, is_dir⟩).2,
      Op.removeLocal uri], ?_, ?_, ?_⟩
    · simp only [placeFile, hA, hP, hApp, if_pos hat]
    · simp only [netBlobs, List.foldl]
      rw [show blobStep penv.fs.localNode.name at_node [] (Op.createLocal uri) =
          [uri] from by simp [blobStep, if_pos hat]]
      rw [blobStep_appendDispatch]
      simp [blobStep, if_pos hat, List.erase_cons_head]
    · exact Or.inl ⟨hat, by simp⟩
  · have hop : opAlloc = Op.placeRPC at_node uri := by
      rw [allocStep, if_neg hat] at hA
      rcases hpr : penv.placeResp at_node with _ | u2
      · rw [hpr] at hA
        simp at hA
      · rw [hpr] at hA
        simp only [Option.map_some', Option.some.injEq, Prod.mk.injEq] at hA
        rw [← hA.2, hA.1]
    subst hop
    refine ⟨[Op.placeRPC at_node uri,
      (appendDispatch penv parentLoc ⟨⟨at_node, uri⟩, file_name, is_dir⟩).2,
      Op.removeRPC at_node uri], ?_, ?_, ?_⟩
    · simp only [placeFile, hA, hP, hApp, if_neg hat]
    · simp only [netBlobs, List.foldl]
      rw [show blobStep penv.fs.localNode.name at_node [] (Op.placeRPC at_node uri) =
          [uri] from by simp [blobStep]]
      rw [blobStep_appendDispatch]
      simp [blobStep, if_neg hat, List.erase_cons_head]
    · exact Or.inr ⟨hat, by simp⟩

/-- Resolver environment for the C4 and C9 witnesses: this node is the
root, with an empty local filesystem oracle (the placements below never
resolve a slashed path). -/
def fsC4 : Env where
  localNode := ⟨"R", 0⟩
  rootNode := some ⟨"R", 0⟩
  localFS := fun _ => none
  cacheGet := fun _ => none
  cacheMtime := fun _ => none
  conn := fun _ => none
  openBi := fun _ => false
  readResp := fun _ _ => .badResponse

/-- Placement environment for the C4 witness: a local allocation whose
directory append collides with an existing entry named x. -/
def penvC4 : PlaceEnv where
  fs := fsC4
  freshUri := "u77"
  placeResp := fun _ => none
  appendLocalResult := fun _ _ => .error (.alreadyExists ⟨⟨"R", "old"⟩, "x", false⟩)
  appendRPCResult := fun _ _ _ => .badReply

/-- Witness for C4: the second placement of x at the root collides, the
error is surfaced and the rollback leaves no net blob on the target
node. -/
theorem place_rollback_on_collision_witness :
    ∃ tr, placeFile penvC4 "x" [] "R" false =
        some (.error (.alreadyExists ⟨⟨"R", "old"⟩, "x", false⟩), tr) ∧
      netBlobs penvC4.fs.localNode.name "R" tr = [] ∧
      (("R" = penvC4.fs.localNode.name ∧ Op.removeLocal "u77" ∈ tr) ∨
        ("R" ≠ penvC4.fs.localNode.name ∧ Op.removeRPC "R" "u77" ∈ tr)) :=
  place_rollback_on_collision penvC4 "x" [] "R" false "u77"
    (.createLocal "u77") ⟨"R", "root"⟩ ⟨⟨"R", "old"⟩, "x", false⟩ rfl rfl rfl

/-- Appends issued against the blob uri on node at_node, in trace
order: local appends count when at_node is this node, RPC appends when
they target at_node. -/
def appendsTo (localName at_node uri : String) : List Op → List DirectoryEntry
  | [] => []
  | .appendLocal d e :: r =>
    if at_node = localName ∧ d = uri then e :: appendsTo localName at_node uri r
    else appendsTo localName at_node uri r
  | .appendRPC n d e :: r =>
    if n = at_node ∧ d = uri then e :: appendsTo localName at_node uri r
    else appendsTo localName at_node uri r
  | _ :: r => appendsTo localName at_node uri r

/-- Effect of one append_dir_entry call on a directory blob of
well-formed entries: refused when an entry of that name exists, else
appended at the end. -/
def applyAppend (blob : List DirectoryEntry) (e : DirectoryEntry) :
    List DirectoryEntry :=
  if (blob.find? fun x => x.name == e.name).isSome then blob else blob ++ [e]

theorem appendsTo_appendDispatch (penv : PlaceEnv) (localName at_node uri : String)
    (pl : Location) (e : DirectoryEntry) (r : List Op) (hfresh : pl.uri ≠ uri) :
    appendsTo localName at_node uri ((appendDispatch penv pl e).2 :: r) =
      appendsTo localName at_node uri r := by
  unfold appendDispatch
  by_cases h : pl.node_name = penv.fs.localNode.name
  · simp only [if_pos h]
    simp [appendsTo, hfresh]
  · simp only [if_neg h]
    cases penv.appendRPCResult pl.node_name pl.uri e <;>
      simp [appendsTo, hfresh]

/-- C9: a successful place with is_dir = true issues, against the newly
created directory blob, exactly the two appends dot then dotdot, the
dot entry carrying the new directory's own Location and the dotdot
entry the parent directory's Location, both marked directories; played
onto the fresh empty blob they leave exactly those two records in
order. -/
theorem place_mkdir_dot_entries (penv : PlaceEnv) (file_name : String)
    (parents : List String) (at_node : String)
    (uri : String) (opAlloc : Op) (parentLoc : Location)
    (hA : allocStep penv at_node = some (uri, opAlloc))
    (hP : parentStep penv parents = some (.ok parentLoc))
    (hApp : (appendDispatch penv parentLoc ⟨⟨at_node, uri⟩, file_name, true⟩).1 =
      .ok ())
    (hfresh : parentLoc.uri ≠ uri) :
    ∃ tr, placeFile penv file_name parents at_node true =
        some (.ok ⟨at_node, uri⟩, tr) ∧
      appendsTo penv.fs.localNode.name at_node uri tr =
        [⟨⟨at_node, uri⟩, ".", true⟩, ⟨parentLoc, "..", true⟩] ∧
      List.foldl applyAppend []
          (appendsTo penv.fs.localNode.name at_node uri tr) =
        [⟨⟨at_node, uri⟩, ".", true⟩, ⟨parentLoc, "..", true⟩] := by
  have happly : List.foldl applyAppend []
      ([⟨⟨at_node, uri⟩, ".", true⟩, ⟨parentLoc, "..", true⟩] :
        List DirectoryEntry) =
      [⟨⟨at_node, uri⟩, ".", true⟩, ⟨parentLoc, "..", true⟩] := by
    simp [applyAppend, List.find?]
  by_cases hat : at_node = penv.fs.localNode.name
  · have hop : opAlloc = Op.createLocal uri := by
      rw [allocStep, if_pos hat] at hA
      simp only [Option.some.injEq, Prod.mk.injEq] at hA
      rw [← hA.2, hA.1]
    subst hop
    refine ⟨[Op.createLocal uri,
      (appendDispatch penv parentLoc ⟨⟨at_node, uri⟩, file_name, true⟩).2,
      Op.appendLocal uri ⟨⟨at_node, uri⟩, ".", true⟩,
      Op.appendLocal uri ⟨parentLoc, "..", true⟩], ?_, ?_, ?_⟩
    · simp only [placeFile, hA, hP, hApp, if_pos hat, if_true]
    · rw [show appendsTo penv.fs.localNode.name at_node uri
          [Op.createLocal uri,
            (appendDispatch penv parentLoc ⟨⟨at_node, uri⟩, file_name, true⟩).2,
            Op.appendLocal uri ⟨⟨at_node, uri⟩, ".", true⟩,
            Op.appendLocal uri ⟨parentLoc, "..", true⟩] =
          appendsTo penv.fs.localNode.name at_node uri
            ((appendDispatch penv parentLoc ⟨⟨at_node, uri⟩, file_name, true⟩).2 ::
              [Op.appendLocal uri ⟨⟨at_node, uri⟩, ".", true⟩,
                Op.appendLocal uri ⟨parentLoc, "..", true⟩]) from rfl]
      rw [appendsTo_appendDispatch penv _ _ _ _ _ _ hfresh]
      simp [appendsTo, hat]
    · rw [show appendsTo penv.fs.localNode.name at_node uri
          [Op.createLocal uri,
            (appendDispatch penv parentLoc ⟨⟨at_node, uri⟩, file_name, true⟩).2,
            Op.appendLocal uri ⟨⟨at_node, uri⟩, ".", true⟩,
            Op.appendLocal uri ⟨parentLoc, "..", true⟩] =
          appendsTo penv.fs.localNode.name at_node uri
            ((appendDispatch penv parentLoc ⟨⟨at_node, uri⟩, file_name, true⟩).2 ::
              [Op.appendLocal uri ⟨⟨at_node, uri⟩, ".", true⟩,
                Op.appendLocal uri ⟨parentLoc, "..", true⟩]) from rfl]
      rw [appendsTo_appendDispatch penv _ _ _ _ _ _ hfresh]
      rw [show appendsTo penv.fs.localNode.name at_node uri
          [Op.appendLocal uri ⟨⟨at_node, uri⟩, ".", true⟩,
            Op.appendLocal uri ⟨parentLoc, "..", true⟩] =
          [⟨⟨at_node, uri⟩, ".", true⟩, ⟨parentLoc, "..", true⟩] from by
        simp [appendsTo, hat]]
      exact happly
  · have hop : opAlloc = Op.placeRPC at_node uri := by
      rw [allocStep, if_neg hat] at hA
      rcases hpr : penv.placeResp at_node with _ | u2
      · rw [hpr] at hA
        simp at hA
      · rw [hpr] at hA
        simp only [Option.map_some', Option.some.injEq, Prod.mk.injEq] at hA
        rw [← hA.2, hA.1]
    subst hop
    refine ⟨[Op.placeRPC at_node uri,
      (appendDispatch penv parentLoc ⟨⟨at_node, uri⟩, file_name, true⟩).2,
      Op.appendRPC at_node uri ⟨⟨at_node, uri⟩, ".", true⟩,
      Op.appendRPC at_node uri ⟨parentLoc, "..", true⟩], ?_, ?_, ?_⟩
    · simp only [placeFile, hA, hP, hApp, if_neg hat, if_true]
    · rw [show appendsTo penv.fs.localNode.name at_node uri
          [Op.placeRPC at_node uri,
            (appendDispatch penv parentLoc ⟨⟨at_node, uri⟩, file_name, true⟩).2,
            Op.appendRPC at_node uri ⟨⟨at_node, uri⟩, ".", true⟩,
            Op.appendRPC at_node uri ⟨parentLoc, "..", true⟩] =
          appendsTo penv.fs.localNode.name at_node uri
            ((appendDispatch penv parentLoc ⟨⟨at_node, uri⟩, file_name, true⟩).2 ::
              [Op.appendRPC at_node uri ⟨⟨at_node, uri⟩, ".", true⟩,
                Op.appendRPC at_node uri ⟨parentLoc, "..", true⟩]) from rfl]
      rw [appendsTo_appendDispatch penv _ _ _ _ _ _ hfresh]
      simp [appendsTo]
    · rw [show appendsTo penv.fs.localNode.name at_node uri
          [Op.placeRPC at_node uri,
            (appendDispatch penv parentLoc ⟨⟨at_node, uri⟩, file_name, true⟩).2,
            Op.appendRPC at_node uri ⟨⟨at_node, uri⟩, ".", true⟩,
            Op.appendRPC at_node uri ⟨parentLoc, "..", true⟩] =
          appendsTo penv.fs.localNode.name at_node uri
            ((appendDispatch penv parentLoc ⟨⟨at_node, uri⟩, file_name, true⟩).2 ::
              [Op.appendRPC at_node uri ⟨⟨at_node, uri⟩, ".", true⟩,
                Op.appendRPC at_node uri ⟨parentLoc, "..", true⟩]) from rfl]
      rw [appendsTo_appendDispatch penv _ _ _ _ _ _ hfresh]
      rw [show appendsTo penv.fs.localNode.name at_node uri
          [Op.appendRPC at_node uri ⟨⟨at_node, uri⟩, ".", true⟩,
            Op.appendRPC at_node uri ⟨parentLoc, "..", true⟩] =
          [⟨⟨at_node, uri⟩, ".", true⟩, ⟨parentLoc, "..", true⟩] from by
        simp [appendsTo]]
      exact happly

/-- Placement environment for the C9 witness: a local mkdir whose
parent append succeeds. -/
def penvC9 : PlaceEnv where
  fs := fsC4
  freshUri := "d1"
  placeResp := fun _ => none
  appendLocalResult := fun _ _ => .ok ()
  appendRPCResult := fun _ _ _ => .badReply

/-- Witness for C9: mkdir d at the root creates blob d1 whose replayed
appends are exactly the dot entry for d1 and the dotdot entry for the
root directory. -/
theorem place_mkdir_dot_entries_witness :
    ∃ tr, placeFile penvC9 "d" [] "R" true = some (.ok ⟨"R", "d1"⟩, tr) ∧
      appendsTo penvC9.fs.localNode.name "R" "d1" tr =
        [⟨⟨"R", "d1"⟩, ".", true⟩, ⟨⟨"R", "root"⟩, "..", true⟩] ∧
      List.foldl applyAppend []
          (appendsTo penvC9.fs.localNode.name "R" "d1" tr) =
        [⟨⟨"R", "d1"⟩, ".", true⟩, ⟨⟨"R", "root"⟩, "..", true⟩] :=
  place_mkdir_dot_entries penvC9 "d" [] "R" "d1" (.createLocal "d1")
    ⟨"R", "root"⟩ rfl rfl rfl (by decide)

end VPFS
